import Mathlib

/-!
Verification development for the PortfolioAnalysis repository.

The functions of `rolling_calculations.py` and
`PortfolioAnalisys-main/risk_metrics.py` are shallowly embedded over exact
rational arithmetic (`ℚ` in place of IEEE floats).  Timestamps are whole
days (`ℤ`), matching the `.days / 365.25` computation of the source.
Pandas `NaN` entries are modelled with `Option`; a function that can raise
in Python returns `Option` (with `none` for the error), or an explicit
outcome inductive when the source distinguishes `np.nan`, `±inf` and a
crash.
-/

namespace PortfolioAnalysis

/-- Arithmetic mean of a list, as used by `pandas.Series.mean`
(callers guard against the empty list). -/
def mean (l : List ℚ) : ℚ := l.sum / l.length

/-- Insert into a sorted list (ascending). -/
def insertSorted (x : ℚ) : List ℚ → List ℚ
  | [] => [x]
  | y :: ys => if x ≤ y then x :: y :: ys else y :: insertSorted x ys

/-- Ascending sort, used to model the order statistics taken by
`pandas.Series.quantile` and `pandas.Series.median`. -/
def sortQ (l : List ℚ) : List ℚ := l.foldr insertSorted []

/-- `pandas.Series.min` on a non-empty list of values. -/
def pdMin (l : List ℚ) : ℚ := l.foldl min (l.headD 0)

/-- `pandas.Series.median`: middle order statistic, or the average of the
two middle order statistics for an even-sized sample. -/
def pdMedian (l : List ℚ) : ℚ :=
  let s := sortQ l
  let n := l.length
  if n % 2 = 1 then s.getD (n / 2) 0
  else (s.getD (n / 2 - 1) 0 + s.getD (n / 2) 0) / 2

/-! ## rolling_calculations.py -/

/-- `data.pct_change(periods)` on a single column without missing values:
entry `i` is `l[i] / l[i - periods] - 1` once `periods ≤ i`, and `NaN`
(`none`) before that (rolling_calculations.py line 10). -/
def pct_change (l : List ℚ) (periods : ℕ) : List (Option ℚ) :=
  (List.range l.length).map fun i =>
    if periods ≤ i then some (l.getD i 0 / l.getD (i - periods) 0 - 1) else none

/-- The source raises the growth factor `1 + pct` to the power
`12 / window = 1 / window_years`.  We record the growth factor itself:
`x ↦ x ^ (1 / w) - 1` is strictly increasing on positives, so order
statistics (min / median / quantiles) of the stored values coincide with
those of the float values.  A negative growth factor under a non-integer
exponent yields `NaN` in numpy (dropped by `dropna`), hence the guard;
the exponent is the integer `1` exactly when `w = 1`. -/
def annualizeGrowth (x : ℚ) (w : ℕ) : Option ℚ :=
  if 1 + x < 0 ∧ w ≠ 1 then none else some (1 + x)

/-- `calculate_rolling_returns` (rolling_calculations.py lines 4-12) on a
single column: `pct_change` over `window_years * 12` periods, annualized,
then `dropna(how='all')` (which on a single column drops exactly the
`NaN` rows). -/
def calculate_rolling_returns (l : List ℚ) (window_years : ℕ) : List ℚ :=
  ((pct_change l (window_years * 12)).map
    (fun o => o.bind (fun x => annualizeGrowth x window_years))).filterMap id

/-- Per-asset result record of `calculate_min_median_by_window`
(rolling_calculations.py lines 57-62). -/
structure WindowProfile where
  windows : List ℕ
  min_values : List ℚ
  median_values : List ℚ
  all_returns_by_window : List (ℕ × List ℚ)
deriving DecidableEq

/-- One iteration of the `for window_years in range(1, max_window + 1)`
loop of `calculate_min_median_by_window` (rolling_calculations.py lines
33-54).  The source extracts `rolling_returns.iloc[:, 0].dropna()`; on a
single column `dropna(how='all')` already removed every `NaN` row, so the
extracted series is the rolling-return list itself and the second
emptiness check repeats the first. -/
def minMedianStep (l : List ℚ) (acc : WindowProfile) (w : ℕ) : WindowProfile :=
  if l.length < w * 12 + 1 then acc
  else
    let rr := calculate_rolling_returns l w
    if rr.isEmpty then acc
    else
      if rr.isEmpty then acc
      else
        ⟨acc.windows ++ [w], acc.min_values ++ [pdMin rr],
         acc.median_values ++ [pdMedian rr],
         acc.all_returns_by_window ++ [(w, rr)]⟩

/-- `calculate_min_median_by_window` (rolling_calculations.py lines 14-63)
for one asset column without missing values. -/
def calculate_min_median_by_window (l : List ℚ) (max_window : ℕ) : WindowProfile :=
  (List.range' 1 max_window).foldl (minMedianStep l) ⟨[], [], [], []⟩

/-- The combined guard under which the window loop records a window:
enough data points and a non-empty rolling-return list. -/
def qualifies (l : List ℚ) (w : ℕ) : Bool :=
  decide (w * 12 + 1 ≤ l.length) && !(calculate_rolling_returns l w).isEmpty

/-- Weight of a column in the weights mapping (`weights[col]`). -/
def wOf (weights : List (String × ℚ)) (c : String) : ℚ := (weights.lookup c).getD 0

/-- `valid_assets = [col for col in weights if col in data.columns and
weights[col] > 0]` (rolling_calculations.py line 93). -/
def valid_assets (data : List (String × List (Option ℚ)))
    (weights : List (String × ℚ)) : List String :=
  (weights.map Prod.fst).filter fun c =>
    (data.lookup c).isSome && decide (0 < wOf weights c)

/-- Rebase a column by its first non-missing value
(`portfolio_data[col] / portfolio_data[col].dropna().iloc[0]`,
rolling_calculations.py lines 102-104); `none` models the `IndexError`
raised by `.iloc[0]` on an all-`NaN` column. -/
def rebase (col : List (Option ℚ)) : Option (List (Option ℚ)) :=
  match (col.filterMap id).head? with
  | none => none
  | some fv => some (col.map (Option.map (· / fv)))

/-- `fillna(method='ffill')`: replace each `NaN` by the last preceding
valid value (a leading run of `NaN` stays). -/
def ffillAux (last : Option ℚ) : List (Option ℚ) → List (Option ℚ)
  | [] => []
  | none :: xs => last :: ffillAux last xs
  | some x :: xs => some x :: ffillAux (some x) xs

/-- Forward fill of a column. -/
def ffill (l : List (Option ℚ)) : List (Option ℚ) := ffillAux none l

/-- `fillna(method='bfill')`: forward fill of the reversed column. -/
def bfill (l : List (Option ℚ)) : List (Option ℚ) := (ffillAux none l.reverse).reverse

/-- `col.fillna(method='ffill').fillna(method='bfill')`
(rolling_calculations.py line 112); after both fills a column with at
least one valid value has no `NaN` left, so the default `0` never fires
for the columns `create_portfolio` sums. -/
def fillColumn (col : List (Option ℚ)) : List ℚ :=
  (bfill (ffill col)).map (·.getD 0)

/-- Length of the shared index of the data frame (every column is stored
on the same index). -/
def indexLen (data : List (String × List (Option ℚ))) : ℕ :=
  (data.head?.map (fun c => c.2.length)).getD 0

/-- `create_portfolio` (rolling_calculations.py lines 87-117): select the
valid assets, rebase each by its first valid value, forward/backward fill,
multiply by the raw entry of `weights` and sum into a column initialised
to `0.0` on the data index.  `none` models the `IndexError` of `rebase`;
the source performs no weight normalization. -/
def create_portfolio (data : List (String × List (Option ℚ)))
    (weights : List (String × ℚ)) : Option (List ℚ) :=
  if data = [] ∨ weights = [] then some []
  else
    let valid := valid_assets data weights
    if valid = [] then some []
    else
      valid.foldlM
        (fun acc c => do
          let col ← data.lookup c
          let reb ← rebase col
          pure (List.zipWith (fun a x => a + x) acc
            ((fillColumn reb).map (fun x => x * wOf weights c))))
        (List.replicate (indexLen data) 0)

/-! ## risk_metrics.py -/

/-- State of a constructed `PortfolioRiskMetrics` object after alignment
(risk_metrics.py lines 14-45): the NAV series as (timestamp in days,
value) pairs, the periodic return series, the annualization factor and the
periodic risk-free rate. -/
structure RiskState where
  nav : List (ℤ × ℚ)
  returns : List ℚ
  F : ℚ
  rf : ℚ
deriving DecidableEq

/-- The NAV values of the state. -/
def nav_values (s : RiskState) : List ℚ := s.nav.map Prod.snd

/-- `total_return` (risk_metrics.py lines 47-51):
`nav.iloc[-1] / nav.iloc[0] - 1` (callers guard the empty series). -/
def total_return (s : RiskState) : ℚ :=
  (nav_values s).getLastD 0 / (nav_values s).headD 0 - 1

/-- Elapsed time in years between the first and last NAV timestamp:
`(index[-1] - index[0]).days / 365.25` (risk_metrics.py line 63);
`365.25 = 1461 / 4` exactly. -/
def elapsed_years (s : RiskState) : ℚ :=
  (((s.nav.getLastD (0, 0)).1 - (s.nav.headD (0, 0)).1 : ℤ) : ℚ) / (1461 / 4)

/-- Outcome of `annualized_return`: `np.nan`, `float('-inf')`, the
`ZeroDivisionError` raised by `1 / total_years` when the elapsed time is
zero, or the finite float `b ** e - 1` recorded by its base
`b = 1 + total_return` and exponent `e = 1 / total_years`. -/
inductive AnnRes where
  | nan
  | neginf
  | crash
  | val (b e : ℚ)
deriving DecidableEq

/-- `annualized_return` (risk_metrics.py lines 53-79).  With fewer than
two NAV points the result is `np.nan`.  For `total_years ≤ 0` the source
returns `np.nan` at exactly `-100%` total return, `-inf` below it, and
otherwise evaluates `(1 + total_ret) ** (1 / total_years) - 1`, which
raises `ZeroDivisionError` when `total_years == 0`.  For positive
`total_years` a base `1 + total_ret < 0` gives `-inf` (the `np.nan` arm
of that line requires `total_ret == -1`, impossible under the guard and
kept only for fidelity); otherwise the power is evaluated. -/
def annualized_return (s : RiskState) : AnnRes :=
  if s.nav.length < 2 then .nan
  else if elapsed_years s ≤ 0 then
    if total_return s = -1 then .nan
    else if total_return s < -1 then .neginf
    else if elapsed_years s = 0 then .crash
    else .val (1 + total_return s) (1 / elapsed_years s)
  else
    if 1 + total_return s < 0 then
      (if total_return s = -1 then .nan else .neginf)
    else .val (1 + total_return s) (1 / elapsed_years s)

/-- Sample variance (`ddof = 1`), the square of `pandas.Series.std`. -/
def sampleVar (l : List ℚ) : ℚ :=
  ((l.map fun x => (x - mean l) ^ 2).sum) / ((l.length : ℚ) - 1)

/-- Outcome of `annualized_volatility` (risk_metrics.py lines 81-86),
recorded by its square: `std(ddof=1) * F` squared, i.e.
`sampleVar * F ^ 2`.  The float is `NaN` for an empty series (explicit
`np.nan` return) and for a single point (`std` with `ddof = 1`); both
make every later comparison with `0` false, so they are merged.  The
square determines the `== 0` test exactly: `sqrt(v) * F = 0` iff
`v * F ^ 2 = 0`. -/
inductive VolRes where
  | nan
  | valSq (v : ℚ)
deriving DecidableEq

/-- `annualized_volatility` squared; see `VolRes`. -/
def annualized_volatility_sq (s : RiskState) : VolRes :=
  if s.returns.length < 2 then .nan
  else .valSq (sampleVar s.returns * s.F ^ 2)

/-- Running maximum with accumulator (tail of `pandas.Series.cummax`). -/
def cummaxAux (m : ℚ) : List ℚ → List ℚ
  | [] => []
  | x :: xs => max m x :: cummaxAux (max m x) xs

/-- `pandas.Series.cummax` (risk_metrics.py line 94). -/
def cummax : List ℚ → List ℚ
  | [] => []
  | x :: xs => x :: cummaxAux x xs

/-- `drawdowns` (risk_metrics.py lines 88-98):
`(nav - nav.cummax()) / nav.cummax()`, elementwise. -/
def drawdowns (nav : List ℚ) : List ℚ :=
  List.zipWith (fun x m => (x - m) / m) nav (cummax nav)

/-- Specification-side running maximum over `NAV_0 .. NAV_i` (the seed
`l.headD 0` is the first element again for a non-empty list, so it is
absorbed by `max`). -/
def prefixMax (l : List ℚ) (i : ℕ) : ℚ := (l.take (i + 1)).foldl max (l.headD 0)

/-- `pandas.Series.quantile` with the linear-interpolation convention:
position `h = α * (n - 1)` on the ascending order statistics, value
`x⌊h⌋ + (h - ⌊h⌋) * (x⌊h⌋₊₁ - x⌊h⌋)`.  `none` models both the empty
series and the `ValueError` pandas raises for `α` outside `[0, 1]`. -/
def quantile (l : List ℚ) (α : ℚ) : Option ℚ :=
  if l = [] ∨ α < 0 ∨ 1 < α then none
  else
    let s := sortQ l
    let h := α * ((l.length : ℚ) - 1)
    let i := (⌊h⌋).toNat
    let lo := s.getD i 0
    let hi := s.getD (i + 1) lo
    some (lo + (h - (⌊h⌋ : ℚ)) * (hi - lo))

/-- `value_at_risk_returns` (risk_metrics.py lines 141-149):
`np.nan` (`none`) on an empty return series, otherwise the `α`-quantile
of the returns. -/
def value_at_risk_returns (s : RiskState) (α : ℚ) : Option ℚ :=
  if s.returns = [] then none else quantile s.returns α

/-- `conditional_value_at_risk_returns` (risk_metrics.py lines 151-173):
mean of the returns `≤ VaR`; if none qualify, `0.0` when the VaR is
non-negative and the VaR itself otherwise (line 170). -/
def conditional_value_at_risk_returns (s : RiskState) (α : ℚ) : Option ℚ :=
  if s.returns = [] then none
  else
    match value_at_risk_returns s α with
    | none => none
    | some v =>
      let shortfall := s.returns.filter fun r => r ≤ v
      if shortfall = [] then some (if 0 ≤ v then 0 else v)
      else some (mean shortfall)

/-- `drawdown_at_risk` (risk_metrics.py lines 175-186): the `α`-quantile
of the drawdown series. -/
def drawdown_at_risk (s : RiskState) (α : ℚ) : Option ℚ :=
  if s.nav = [] then none else quantile (drawdowns (nav_values s)) α

/-- `conditional_drawdown_at_risk` (risk_metrics.py lines 188-211): mean
of the drawdowns `≤ DaR`; `0.0` if none qualify (line 208). -/
def conditional_drawdown_at_risk (s : RiskState) (α : ℚ) : Option ℚ :=
  if s.nav = [] then none
  else
    match drawdown_at_risk s α with
    | none => none
    | some dar =>
      let shortfall := (drawdowns (nav_values s)).filter fun d => d ≤ dar
      if shortfall = [] then some 0
      else some (mean shortfall)

/-- The square of `ulcer_index` (risk_metrics.py lines 108-121):
`mean(drawdowns ^ 2)`; the ulcer index itself is its square root.
`none` models the `np.nan` of the empty series. -/
def ulcer_index_sq (nav : List ℚ) : Option ℚ :=
  if nav = [] then none
  else some (mean ((drawdowns nav).map fun d => d ^ 2))

/-- The value `get_all_metrics` stores under the key `"Ulcer Index"`
(risk_metrics.py line 421): `ulcer * 100`, i.e. one hundred times the
square root of `ulcer_index_sq`. -/
noncomputable def get_all_metrics_ulcer_entry (nav : List ℚ) : Option ℝ :=
  (ulcer_index_sq nav).map fun u : ℚ => 100 * Real.sqrt (u : ℝ)

/-- Computable three-way comparison of `b ** e` (real power, `0 ≤ b`,
with `0 < e` whenever `b = 0`) against a rational `c`, mirroring the
float comparisons of the source: for `c ≤ 0` the positive power decides,
otherwise both sides are raised to the `e.den`-th power, turning the
comparison into one between the rationals `b ^ e.num` and `c ^ e.den`. -/
def cmpPow (b e c : ℚ) : Ordering :=
  if c < 0 then .gt
  else if c = 0 then (if b = 0 then .eq else .gt)
  else if b ^ e.num < c ^ e.den then .lt
  else if c ^ e.den < b ^ e.num then .gt
  else .eq

/-- Outcome of `sharpe_ratio`: crash propagated from
`annualized_return`, `np.nan`, `±inf`, or the finite quotient
`(annualized return - rf * F) / (std * F)` recorded symbolically by the
annualized-return outcome and the squared volatility. -/
inductive SharpeRes where
  | crash
  | nan
  | posinf
  | neginf
  | quot (r : AnnRes) (volSq : ℚ)
deriving DecidableEq

/-- `sharpe_ratio` (risk_metrics.py lines 235-257).  The source computes
`annualized_return` (whose `ZeroDivisionError` would propagate) and
`annualized_volatility`, returns `np.nan` when either is the `np.nan`
sentinel, and on zero volatility compares the annualized return with
`risk_free_rate * annualization_factor`, returning `+inf` / `-inf` /
`np.nan` by the sign of the excess return. -/
def sharpe_ratio (s : RiskState) : SharpeRes :=
  match annualized_return s, annualized_volatility_sq s with
  | .crash, _ => .crash
  | .nan, _ => .nan
  | _, .nan => .nan
  | .neginf, .valSq v => if v = 0 then .neginf else .quot .neginf v
  | .val b e, .valSq v =>
    if v = 0 then
      match cmpPow b e (1 + s.rf * s.F) with
      | .gt => .posinf
      | .lt => .neginf
      | .eq => .nan
    else .quot (.val b e) v

/-! ## Concrete inputs used by the counterexamples and witnesses -/

/-- Two fully-valid asset columns on a two-point index. -/
def dataC1 : List (String × List (Option ℚ)) :=
  [("A", [some 100, some 110]), ("B", [some 50, some 55])]

/-- The raw weights `{A: 0.3, B: 0.2}` of the scenario. -/
def weightsC1 : List (String × ℚ) := [("A", 3 / 10), ("B", 1 / 5)]

/-- NAV path whose drawdown path is `[0, 0, -3/5, -4/5]`, giving the
rational ulcer index `1/2`. -/
def navC3 : List ℚ := [100, 100, 40, 20]

/-- Single-point NAV and single-element return sample. -/
def stateC2 : RiskState := ⟨[(0, 100)], [1 / 20], 1, 0⟩

/-- NAV falling from `100` to `-50` over 365 days: total return `-3/2`. -/
def stateC4 : RiskState := ⟨[(0, 100), (365, -50)], [0], 1, 0⟩

/-- NAV growing from `1` to `4` over 365 days with constant returns, so
the annualized volatility is `0` and the annualized return positive. -/
def stateC6 : RiskState := ⟨[(0, 1), (365, 4)], [0, 0], 1, 0⟩

/-- The NAV scenario of the specification, `[100, 110, 99, 105]`. -/
def navC5 : List ℚ := [100, 110, 99, 105]

/-- Return sample with a value strictly below its median. -/
def stateC7 : RiskState := ⟨[(0, 1), (30, 1), (60, 1), (90, 1)], [-1 / 10, 0, 1 / 10], 1, 0⟩

/-- Thirteen months of strictly positive prices: exactly enough for the
one-year window. -/
def pricesC8 : List ℚ :=
  [100, 101, 102, 103, 104, 105, 106, 107, 108, 109, 110, 111, 112]

/-! ## Helper lemmas -/

lemma sum_le_length_mul (l : List ℚ) (v : ℚ) (h : ∀ x ∈ l, x ≤ v) :
    l.sum ≤ (l.length : ℚ) * v := by
  induction l with
  | nil => simp
  | cons a t ih =>
    have ha : a ≤ v := h a (List.mem_cons_self a t)
    have ht : t.sum ≤ (t.length : ℚ) * v :=
      ih fun x hx => h x (List.mem_cons_of_mem a hx)
    simp only [List.sum_cons, List.length_cons]
    push_cast
    linarith

lemma mean_le_of_forall_le (l : List ℚ) (v : ℚ) (hne : l ≠ [])
    (h : ∀ x ∈ l, x ≤ v) : mean l ≤ v := by
  have hlen : 0 < (l.length : ℚ) := by
    have : 0 < l.length := List.length_pos.mpr hne
    exact_mod_cast this
  rw [mean, div_le_iff₀ hlen]
  linarith [sum_le_length_mul l v h]

lemma quantile_singleton (r α : ℚ) (h0 : 0 ≤ α) (h1 : α ≤ 1) :
    quantile [r] α = some r := by
  rw [quantile, if_neg (by push_neg; exact ⟨by simp, h0, h1⟩)]
  simp [sortQ, insertSorted]

/-! ## C2: tail-risk computations on samples of size < 2 -/

/-- Claim C2 is false on the code: on a single-element return sample and a
single-point NAV series, all four tail-risk functions return a numeric
value (`VaR = CVaR =` the single return, `DaR = CDaR = 0`) instead of an
error or the undefined sentinel. -/
theorem tail_risk_singleton_cex :
    value_at_risk_returns stateC2 (1 / 20) = some (1 / 20) ∧
    conditional_value_at_risk_returns stateC2 (1 / 20) = some (1 / 20) ∧
    drawdown_at_risk stateC2 (1 / 20) = some 0 ∧
    conditional_drawdown_at_risk stateC2 (1 / 20) = some 0 ∧
    (some (1 / 20 : ℚ) ≠ (none : Option ℚ)) := by
  refine ⟨?_, ?_, ?_, ?_, by simp⟩ <;>
    · simp [value_at_risk_returns, conditional_value_at_risk_returns,
        drawdown_at_risk, conditional_drawdown_at_risk, stateC2, quantile,
        sortQ, insertSorted, nav_values, drawdowns, cummax, mean]
      norm_num

/-- Claim C2, amended: for a single-element return sample the quantile and
tail mean silently evaluate to the element itself, and for a single-point
NAV series the drawdown tail statistics silently evaluate to `0`; no
error or undefined sentinel is produced.  (A size-0 sample cannot occur:
construction rejects empty series, and the methods return the `np.nan`
sentinel on them.) -/
theorem tail_risk_singleton (s : RiskState) (r : ℚ) (d : ℤ) (x : ℚ) (α : ℚ)
    (hret : s.returns = [r]) (hnav : s.nav = [(d, x)])
    (h0 : 0 ≤ α) (h1 : α ≤ 1) (_hx : 0 < x) :
    value_at_risk_returns s α = some r ∧
    conditional_value_at_risk_returns s α = some r ∧
    drawdown_at_risk s α = some 0 ∧
    conditional_drawdown_at_risk s α = some 0 := by
  have hvar : value_at_risk_returns s α = some r := by
    rw [value_at_risk_returns, if_neg (by rw [hret]; simp), hret]
    exact quantile_singleton r α h0 h1
  have hdd : drawdowns (nav_values s) = [0] := by
    rw [nav_values, hnav]
    simp [drawdowns, cummax]
  have hdar : drawdown_at_risk s α = some 0 := by
    rw [drawdown_at_risk, if_neg (by rw [hnav]; simp), hdd]
    exact quantile_singleton 0 α h0 h1
  refine ⟨hvar, ?_, hdar, ?_⟩
  · rw [conditional_value_at_risk_returns, if_neg (by rw [hret]; simp), hvar, hret]
    simp [mean]
  · rw [conditional_drawdown_at_risk, if_neg (by rw [hnav]; simp), hdar, hdd]
    simp [mean]

/-- Witness for `tail_risk_singleton` at `stateC2` with `α = 1/20`. -/
theorem tail_risk_singleton_witness :
    value_at_risk_returns stateC2 (1 / 20) = some (1 / 20) ∧
    conditional_value_at_risk_returns stateC2 (1 / 20) = some (1 / 20) ∧
    drawdown_at_risk stateC2 (1 / 20) = some 0 ∧
    conditional_drawdown_at_risk stateC2 (1 / 20) = some 0 :=
  tail_risk_singleton stateC2 (1 / 20) 0 100 (1 / 20) rfl rfl
    (by norm_num) (by norm_num) (by norm_num)



/-! ## C4: annualized return on degenerate inputs -/

/-- Claim C4 is false on the code: with NAV falling from 100 to -50 over
365 days (elapsed time positive, `1 + TotalReturn < 0`),
`annualized_return` returns `-inf`, not the undefined sentinel. -/
theorem annualized_return_neginf_cex :
    annualized_return stateC4 = AnnRes.neginf ∧ AnnRes.neginf ≠ AnnRes.nan := by
  constructor
  · simp [annualized_return, stateC4, total_return, elapsed_years, nav_values]
    norm_num
  · simp

/-- Claim C4, amended: for at least two NAV points, a positive elapsed
time with `1 + TotalReturn < 0` yields `-inf` (not the undefined
sentinel), and a zero elapsed time with `TotalReturn > -1` raises
`ZeroDivisionError` (a crash, not the sentinel). -/
theorem annualized_return_degenerate (s : RiskState) (hlen : 2 ≤ s.nav.length) :
    (0 < elapsed_years s → 1 + total_return s < 0 →
      annualized_return s = AnnRes.neginf) ∧
    (elapsed_years s = 0 → -1 < total_return s →
      annualized_return s = AnnRes.crash) := by
  constructor
  · intro hT htr
    rw [annualized_return, if_neg (by omega), if_neg (not_le.mpr hT),
      if_pos htr, if_neg (by intro h; rw [h] at htr; norm_num at htr)]
  · intro hT htr
    rw [annualized_return, if_neg (by omega), if_pos (le_of_eq hT),
      if_neg (by intro h; rw [h] at htr; norm_num at htr),
      if_neg (not_lt.mpr (le_of_lt htr)), if_pos hT]

/-- Witness for `annualized_return_degenerate` at `stateC4`. -/
theorem annualized_return_degenerate_witness :
    annualized_return stateC4 = AnnRes.neginf :=
  (annualized_return_degenerate stateC4 (by simp [stateC4])).1
    (by norm_num [elapsed_years, stateC4])
    (by norm_num [total_return, stateC4, nav_values])

/-! ## C1: create_portfolio uses raw weights -/

/-- Claim C1 is false on the code: with the scenario weights
`{A: 0.3, B: 0.2}` `create_portfolio` sums the raw weights, so the
portfolio value at the first timestamp is `0.5`, not `1.0`. -/
theorem create_portfolio_raw_weights_cex :
    create_portfolio dataC1 weightsC1 = some [1 / 2, 11 / 20] ∧
    (1 / 2 : ℚ) ≠ 1 := by
  constructor
  · simp [create_portfolio, dataC1, weightsC1, valid_assets, wOf, indexLen,
      rebase, fillColumn, ffill, bfill, ffillAux, List.filterMap, List.lookup,
      List.foldlM]
    norm_num
  · norm_num

/-! ## C5: the drawdown path -/

lemma cummaxAux_length (m : ℚ) (l : List ℚ) : (cummaxAux m l).length = l.length := by
  induction l generalizing m with
  | nil => rfl
  | cons x xs ih => simp [cummaxAux, ih]

lemma cummax_length (l : List ℚ) : (cummax l).length = l.length := by
  cases l with
  | nil => rfl
  | cons x xs => simp [cummax, cummaxAux_length]

lemma cummaxAux_getD (l : List ℚ) :
    ∀ (m : ℚ) (i : ℕ), i < l.length →
      (cummaxAux m l).getD i 0 = (l.take (i + 1)).foldl max m := by
  induction l with
  | nil => intro m i h; simp at h
  | cons x xs ih =>
    intro m i h
    cases i with
    | zero => simp [cummaxAux]
    | succ j =>
      have hj : j < xs.length := by simpa using h
      simp only [cummaxAux, List.getD_cons_succ, List.take_succ_cons,
        List.foldl_cons]
      exact ih (max m x) j hj

lemma cummax_getD (l : List ℚ) (i : ℕ) (h : i < l.length) :
    (cummax l).getD i 0 = prefixMax l i := by
  cases l with
  | nil => simp at h
  | cons x xs =>
    cases i with
    | zero => simp [cummax, prefixMax]
    | succ j =>
      have hj : j < xs.length := by simpa using h
      simp only [cummax, List.getD_cons_succ, prefixMax, List.take_succ_cons,
        List.foldl_cons, List.headD_cons, max_self]
      exact cummaxAux_getD xs x j hj

lemma le_foldl_max (l : List ℚ) (a : ℚ) : a ≤ l.foldl max a := by
  induction l generalizing a with
  | nil => simp
  | cons x xs ih =>
    simp only [List.foldl_cons]
    exact le_trans (le_max_left a x) (ih (max a x))

lemma mem_le_foldl_max (l : List ℚ) (a x : ℚ) (hx : x ∈ l) :
    x ≤ l.foldl max a := by
  induction l generalizing a with
  | nil => simp at hx
  | cons y ys ih =>
    simp only [List.foldl_cons]
    rcases List.mem_cons.mp hx with h | h
    · subst h
      exact le_trans (le_max_right a x) (le_foldl_max ys (max a x))
    · exact ih (max a y) h

lemma getD_mem_take {α : Type} (l : List α) (d : α) :
    ∀ i, i < l.length → l.getD i d ∈ l.take (i + 1) := by
  induction l with
  | nil => intro i h; simp at h
  | cons x xs ih =>
    intro i h
    cases i with
    | zero => simp
    | succ j =>
      have hj : j < xs.length := by simpa using h
      simp only [List.getD_cons_succ, List.take_succ_cons]
      exact List.mem_cons_of_mem x (ih j hj)

lemma getD_mem {α : Type} (l : List α) (d : α) (i : ℕ) (h : i < l.length) :
    l.getD i d ∈ l :=
  List.mem_of_mem_take (getD_mem_take l d i h)

lemma zipWith_getD (f : ℚ → ℚ → ℚ) (l₁ l₂ : List ℚ) :
    ∀ i, i < l₁.length → i < l₂.length →
      (List.zipWith f l₁ l₂).getD i 0 = f (l₁.getD i 0) (l₂.getD i 0) := by
  induction l₁ generalizing l₂ with
  | nil => intro i h; simp at h
  | cons x xs ih =>
    intro i h₁ h₂
    cases l₂ with
    | nil => simp at h₂
    | cons y ys =>
      cases i with
      | zero => simp
      | succ j =>
        have hj₁ : j < xs.length := by simpa using h₁
        have hj₂ : j < ys.length := by simpa using h₂
        simp only [List.zipWith_cons_cons, List.getD_cons_succ]
        exact ih ys j hj₁ hj₂

lemma prefixMax_pos (l : List ℚ) (i : ℕ) (hne : l ≠ [])
    (hpos : ∀ x ∈ l, 0 < x) : 0 < prefixMax l i := by
  have hh : l.headD 0 ∈ l := by
    cases l with
    | nil => exact absurd rfl hne
    | cons x xs => simp
  exact lt_of_lt_of_le (hpos _ hh) (le_foldl_max _ _)

lemma getD_le_prefixMax (l : List ℚ) (i : ℕ) (h : i < l.length) :
    l.getD i 0 ≤ prefixMax l i :=
  mem_le_foldl_max _ _ _ (getD_mem_take l 0 i h)

/-- Claim C5 (confirmed): for a non-empty NAV series with strictly
positive values, the drawdown path has the same length, its entry at `i`
is `(NAV_i - runmax(NAV_0..i)) / runmax(NAV_0..i)`, every entry lies in
`[-1, 0]`, and the first entry is exactly `0`. -/
theorem drawdowns_spec (nav : List ℚ) (hne : nav ≠ [])
    (hpos : ∀ x ∈ nav, 0 < x) :
    (drawdowns nav).length = nav.length ∧
    (drawdowns nav).head? = some 0 ∧
    ∀ i, i < nav.length →
      (drawdowns nav).getD i 0 = (nav.getD i 0 - prefixMax nav i) / prefixMax nav i ∧
      -1 ≤ (drawdowns nav).getD i 0 ∧ (drawdowns nav).getD i 0 ≤ 0 := by
  have hlen : (drawdowns nav).length = nav.length := by
    simp [drawdowns, cummax_length]
  have hget : ∀ i, i < nav.length →
      (drawdowns nav).getD i 0 = (nav.getD i 0 - prefixMax nav i) / prefixMax nav i := by
    intro i hi
    rw [drawdowns, zipWith_getD _ _ _ i hi (by rw [cummax_length]; exact hi),
      cummax_getD nav i hi]
  refine ⟨hlen, ?_, ?_⟩
  · cases nav with
    | nil => exact absurd rfl hne
    | cons x xs =>
      have hx : x ≠ 0 := ne_of_gt (hpos x (by simp))
      simp [drawdowns, cummax, sub_self]
  · intro i hi
    have hm : 0 < prefixMax nav i := prefixMax_pos nav i hne hpos
    have hxm : nav.getD i 0 ≤ prefixMax nav i := getD_le_prefixMax nav i hi
    have hx : 0 < nav.getD i 0 := hpos _ (getD_mem nav 0 i hi)
    refine ⟨hget i hi, ?_, ?_⟩
    · rw [hget i hi, le_div_iff₀ hm]
      linarith
    · rw [hget i hi, div_le_iff₀ hm]
      linarith

/-- Witness for `drawdowns_spec` at the specification scenario
`[100, 110, 99, 105]`. -/
theorem drawdowns_spec_witness :
    (drawdowns navC5).length = navC5.length ∧
    (drawdowns navC5).head? = some 0 ∧
    (-1 ≤ (drawdowns navC5).getD 2 0 ∧ (drawdowns navC5).getD 2 0 ≤ 0) := by
  have h := drawdowns_spec navC5 (by simp [navC5]) (by norm_num [navC5])
  exact ⟨h.1, h.2.1, (h.2.2 2 (by norm_num [navC5])).2⟩

/-! ## C7: CVaR is at least as severe as VaR -/

/-- Claim C7 (confirmed): whenever the return sample contains a value
strictly below the quantile `VaR(α)`, the tail mean `CVaR(α)` is at most
`VaR(α)`. -/
theorem cvar_le_var (s : RiskState) (α v c : ℚ)
    (hv : value_at_risk_returns s α = some v)
    (hc : conditional_value_at_risk_returns s α = some c)
    (hlt : ∃ r ∈ s.returns, r < v) : c ≤ v := by
  obtain ⟨r, hr, hrv⟩ := hlt
  have hne : s.returns ≠ [] := by
    intro h
    rw [h] at hr
    simp at hr
  have hmem : r ∈ s.returns.filter fun x => x ≤ v :=
    List.mem_filter.mpr ⟨hr, by simpa using le_of_lt hrv⟩
  have hfne : s.returns.filter (fun x => x ≤ v) ≠ [] := by
    intro h
    rw [h] at hmem
    simp at hmem
  rw [conditional_value_at_risk_returns, if_neg hne, hv] at hc
  dsimp only at hc
  rw [if_neg hfne] at hc
  have hc' : c = mean (s.returns.filter fun x => x ≤ v) := by
    exact (Option.some_injective ℚ hc).symm
  rw [hc']
  refine mean_le_of_forall_le _ v hfne ?_
  intro x hx
  exact by simpa using (List.mem_filter.mp hx).2

/-- Witness for `cvar_le_var` on the sample `[-1/10, 0, 1/10]` with
`α = 1/2` (quantile `0`, tail mean `-1/20`). -/
theorem cvar_le_var_witness :
    value_at_risk_returns stateC7 (1 / 2) = some 0 ∧
    conditional_value_at_risk_returns stateC7 (1 / 2) = some (-1 / 20) ∧
    (-1 / 20 : ℚ) ≤ 0 := by
  have h1 : value_at_risk_returns stateC7 (1 / 2) = some 0 := by
    simp [value_at_risk_returns, stateC7, quantile, sortQ, insertSorted]
    norm_num
  have h2 : conditional_value_at_risk_returns stateC7 (1 / 2) = some (-1 / 20) := by
    rw [conditional_value_at_risk_returns, if_neg (by simp [stateC7]), h1]
    simp [stateC7, mean]
    norm_num
  exact ⟨h1, h2, cvar_le_var stateC7 (1 / 2) 0 (-1 / 20) h1 h2
    ⟨-1 / 10, by simp [stateC7], by norm_num⟩⟩

/-! ## C8: length of the rolling-return series -/

lemma filterMap_range_threshold (n m : ℕ) (f : ℕ → ℚ) :
    (((List.range n).map fun i => if m ≤ i then some (f i) else none).filterMap id) =
      (List.range (n - m)).map fun k => f (k + m) := by
  induction n with
  | zero => simp
  | succ n ih =>
    rw [List.range_succ, List.map_append, List.filterMap_append, ih]
    by_cases h : m ≤ n
    · have hs : n + 1 - m = (n - m) + 1 := by omega
      rw [hs, List.range_succ, List.map_append]
      simp [h, Nat.sub_add_cancel h]
    · have h1 : n + 1 - m = 0 := by omega
      have h2 : n - m = 0 := by omega
      rw [h1, h2]
      simp [h]

/-- On a strictly positive series, `calculate_rolling_returns` is exactly
the list of growth ratios `l[k + 12w] / l[k]` for
`k < len - 12w` (no entry of the annualized power is `NaN`, so
`dropna` removes exactly the leading `NaN` rows of `pct_change`). -/
lemma calculate_rolling_returns_eq (l : List ℚ) (w : ℕ)
    (hpos : ∀ x ∈ l, 0 < x) :
    calculate_rolling_returns l w =
      (List.range (l.length - w * 12)).map
        fun k => l.getD (k + w * 12) 0 / l.getD k 0 := by
  have hmap : ((pct_change l (w * 12)).map
      fun o => o.bind fun x => annualizeGrowth x w) =
      (List.range l.length).map
        fun i => if w * 12 ≤ i then
          some (l.getD i 0 / l.getD (i - w * 12) 0) else none := by
    rw [pct_change, List.map_map]
    refine List.map_congr_left ?_
    intro i hi
    have hi' : i < l.length := List.mem_range.mp hi
    by_cases h : w * 12 ≤ i
    · have hnum : 0 < l.getD i 0 := hpos _ (getD_mem l 0 i hi')
      have hden : 0 < l.getD (i - w * 12) 0 := hpos _ (getD_mem l 0 _ (by omega))
      have hratio : 0 < l.getD i 0 / l.getD (i - w * 12) 0 := div_pos hnum hden
      simp only [Function.comp, if_pos h, Option.some_bind]
      rw [annualizeGrowth, if_neg (by push_neg; intro hneg; linarith)]
      congr 1
      ring
    · simp [Function.comp, if_neg h]
  rw [calculate_rolling_returns, hmap, filterMap_range_threshold]
  refine List.map_congr_left ?_
  intro k _
  simp [Nat.add_sub_cancel]

/-- Claim C8 (confirmed): on a strictly positive series without missing
values and a window of `w ≥ 1` years, the rolling-return series has
length `max(0, len - 12w)`; in particular it is empty (with no error)
when `len ≤ 12w`.  (`w ≥ 1` reflects the source, where `window = 0`
would raise `ZeroDivisionError` at `12 / window`.) -/
theorem rolling_returns_length (l : List ℚ) (w : ℕ) (_hw : 1 ≤ w)
    (hpos : ∀ x ∈ l, 0 < x) :
    ((calculate_rolling_returns l w).length : ℤ) =
      max 0 ((l.length : ℤ) - (w * 12 : ℕ)) := by
  rw [calculate_rolling_returns_eq l w hpos]
  simp only [List.length_map, List.length_range]
  omega

/-- Witness for `rolling_returns_length`: 13 monthly prices and a 1-year
window yield exactly one rolling return. -/
theorem rolling_returns_length_witness :
    ((calculate_rolling_returns pricesC8 1).length : ℤ) = 1 := by
  have h := rolling_returns_length pricesC8 1 (by norm_num) (by norm_num [pricesC8])
  rw [h]
  simp [pricesC8]

/-! ## C9 and C10: the window sweep -/

lemma minMedianStep_eq (l : List ℚ) (acc : WindowProfile) (w : ℕ) :
    minMedianStep l acc w =
      if qualifies l w then
        ⟨acc.windows ++ [w],
         acc.min_values ++ [pdMin (calculate_rolling_returns l w)],
         acc.median_values ++ [pdMedian (calculate_rolling_returns l w)],
         acc.all_returns_by_window ++ [(w, calculate_rolling_returns l w)]⟩
      else acc := by
  by_cases h1 : l.length < w * 12 + 1
  · have h2 : ¬ (w * 12 + 1 ≤ l.length) := by omega
    simp [minMedianStep, qualifies, h1, h2]
  · have h2 : w * 12 + 1 ≤ l.length := by omega
    by_cases h3 : (calculate_rolling_returns l w).isEmpty
    · simp [minMedianStep, qualifies, h1, h2, h3]
    · simp [minMedianStep, qualifies, h1, h2, h3]

lemma foldl_minMedianStep (l : List ℚ) (ws : List ℕ) (acc : WindowProfile) :
    ws.foldl (minMedianStep l) acc =
      ⟨acc.windows ++ ws.filter (qualifies l),
       acc.min_values ++ (ws.filter (qualifies l)).map
         (fun w => pdMin (calculate_rolling_returns l w)),
       acc.median_values ++ (ws.filter (qualifies l)).map
         (fun w => pdMedian (calculate_rolling_returns l w)),
       acc.all_returns_by_window ++ (ws.filter (qualifies l)).map
         (fun w => (w, calculate_rolling_returns l w))⟩ := by
  induction ws generalizing acc with
  | nil => simp
  | cons w ws ih =>
    rw [List.foldl_cons, ih (minMedianStep l acc w), minMedianStep_eq]
    by_cases h : qualifies l w
    · simp [h, List.filter_cons]
    · simp [h, List.filter_cons]

lemma qualifies_iff (l : List ℚ) (w : ℕ) (hpos : ∀ x ∈ l, 0 < x) :
    qualifies l w = true ↔ w * 12 + 1 ≤ l.length := by
  have hlen : (calculate_rolling_returns l w).length = l.length - w * 12 := by
    rw [calculate_rolling_returns_eq l w hpos]
    simp
  rw [qualifies]
  constructor
  · intro h
    simp only [Bool.and_eq_true, decide_eq_true_eq] at h
    exact h.1
  · intro h
    have hne : (calculate_rolling_returns l w).isEmpty = false := by
      rw [List.isEmpty_eq_false_iff_exists_mem]
      have : 0 < (calculate_rolling_returns l w).length := by omega
      exact List.exists_mem_of_length_pos this
    simp [h, hne]

lemma lookup_map_pair (g : ℕ → List ℚ) (sel : List ℕ) (w : ℕ) (hw : w ∈ sel) :
    (sel.map fun v => (v, g v)).lookup w = some (g w) := by
  induction sel with
  | nil => simp at hw
  | cons a rest ih =>
    by_cases h : w = a
    · subst h
      simp [List.lookup]
    · rcases List.mem_cons.mp hw with h1 | h1
      · exact absurd h1 h
      · have hba : (w == a) = false := by
          simp [h]
        simp only [List.map_cons, List.lookup, hba]
        exact ih h1

lemma getD_map_of_lt {A B : Type} (f : A → B) (l : List A) (i : ℕ)
    (dA : A) (dB : B) (h : i < l.length) :
    (l.map f).getD i dB = f (l.getD i dA) := by
  induction l generalizing i with
  | nil => simp at h
  | cons x xs ih =>
    cases i with
    | zero => simp
    | succ j =>
      have hj : j < xs.length := by simpa using h
      simp only [List.map_cons, List.getD_cons_succ]
      exact ih j hj

/-- Claim C9 (confirmed): on a strictly positive series without missing
values, a window `w` appears in the output exactly when `1 ≤ w ≤
maxWindow` and the series has at least `12w + 1` points; unqualified
windows are absent without error, and the reported windows are strictly
increasing. -/
theorem min_median_window_selection (l : List ℚ) (maxw w : ℕ)
    (hpos : ∀ x ∈ l, 0 < x) :
    (w ∈ (calculate_min_median_by_window l maxw).windows ↔
      (1 ≤ w ∧ w ≤ maxw ∧ w * 12 + 1 ≤ l.length)) ∧
    (calculate_min_median_by_window l maxw).windows.Pairwise (· < ·) := by
  have hw : (calculate_min_median_by_window l maxw).windows
      = (List.range' 1 maxw).filter (qualifies l) := by
    rw [calculate_min_median_by_window, foldl_minMedianStep]
    rfl
  rw [hw]
  constructor
  · rw [List.mem_filter, List.mem_range'_1, qualifies_iff l w hpos]
    omega
  · exact (List.pairwise_lt_range' 1 maxw).sublist (List.filter_sublist _)

/-- Witness for `min_median_window_selection` on 13 monthly prices with
`maxWindow = 2`: the 1-year window qualifies, the 2-year window is
skipped. -/
theorem min_median_window_selection_witness :
    1 ∈ (calculate_min_median_by_window pricesC8 2).windows ∧
    2 ∉ (calculate_min_median_by_window pricesC8 2).windows := by
  have hpos : ∀ x ∈ pricesC8, 0 < x := by norm_num [pricesC8]
  refine ⟨(min_median_window_selection pricesC8 2 1 hpos).1.mpr
    (by norm_num [pricesC8]), fun hmem => ?_⟩
  have := (min_median_window_selection pricesC8 2 2 hpos).1.mp hmem
  norm_num [pricesC8] at this

/-- Claim C10 (confirmed): in each asset profile the three parallel lists
have equal length, the keys of `all_returns_by_window` are exactly the
`windows` list, and each recorded min / median is the `pdMin` / `pdMedian`
of the sample stored for that window. -/
theorem min_median_profile_consistent (l : List ℚ) (maxw : ℕ) :
    ((calculate_min_median_by_window l maxw).min_values.length =
      (calculate_min_median_by_window l maxw).windows.length) ∧
    ((calculate_min_median_by_window l maxw).median_values.length =
      (calculate_min_median_by_window l maxw).windows.length) ∧
    ((calculate_min_median_by_window l maxw).all_returns_by_window.map Prod.fst =
      (calculate_min_median_by_window l maxw).windows) ∧
    ∀ i, i < (calculate_min_median_by_window l maxw).windows.length →
      ∃ rs, (calculate_min_median_by_window l maxw).all_returns_by_window.lookup
          ((calculate_min_median_by_window l maxw).windows.getD i 0) = some rs ∧
        (calculate_min_median_by_window l maxw).min_values.getD i 0 = pdMin rs ∧
        (calculate_min_median_by_window l maxw).median_values.getD i 0 = pdMedian rs := by
  have hW : (calculate_min_median_by_window l maxw).windows
      = (List.range' 1 maxw).filter (qualifies l) := by
    rw [calculate_min_median_by_window, foldl_minMedianStep]
    rfl
  have hM : (calculate_min_median_by_window l maxw).min_values
      = ((List.range' 1 maxw).filter (qualifies l)).map
          (fun w => pdMin (calculate_rolling_returns l w)) := by
    rw [calculate_min_median_by_window, foldl_minMedianStep]
    rfl
  have hMed : (calculate_min_median_by_window l maxw).median_values
      = ((List.range' 1 maxw).filter (qualifies l)).map
          (fun w => pdMedian (calculate_rolling_returns l w)) := by
    rw [calculate_min_median_by_window, foldl_minMedianStep]
    rfl
  have hA : (calculate_min_median_by_window l maxw).all_returns_by_window
      = ((List.range' 1 maxw).filter (qualifies l)).map
          (fun w => (w, calculate_rolling_returns l w)) := by
    rw [calculate_min_median_by_window, foldl_minMedianStep]
    rfl
  rw [hW, hM, hMed, hA]
  refine ⟨by simp, by simp, ?_, ?_⟩
  · rw [List.map_map]
    exact List.map_id _
  · intro i hi
    refine ⟨calculate_rolling_returns l
      (((List.range' 1 maxw).filter (qualifies l)).getD i 0), ?_, ?_, ?_⟩
    · exact lookup_map_pair _ _ _ (getD_mem _ 0 i hi)
    · exact getD_map_of_lt _ _ i 0 0 hi
    · exact getD_map_of_lt _ _ i 0 0 hi

/-- Witness for `min_median_profile_consistent` on 13 monthly prices with
`maxWindow = 2` at index 0. -/
theorem min_median_profile_consistent_witness :
    ∃ rs, (calculate_min_median_by_window pricesC8 2).all_returns_by_window.lookup
        ((calculate_min_median_by_window pricesC8 2).windows.getD 0 0) = some rs ∧
      (calculate_min_median_by_window pricesC8 2).min_values.getD 0 0 = pdMin rs ∧
      (calculate_min_median_by_window pricesC8 2).median_values.getD 0 0 = pdMedian rs := by
  have hpos : ∀ x ∈ pricesC8, 0 < x := by norm_num [pricesC8]
  have hq1 : qualifies pricesC8 1 = true :=
    (qualifies_iff pricesC8 1 hpos).mpr (by norm_num [pricesC8])
  have hwind : (calculate_min_median_by_window pricesC8 2).windows.length = 2 - 1 := by
    rw [calculate_min_median_by_window, foldl_minMedianStep]
    have hr : List.range' 1 2 = [1, 2] := rfl
    by_cases hq2 : qualifies pricesC8 2 = true
    · exact absurd ((qualifies_iff pricesC8 2 hpos).mp hq2) (by norm_num [pricesC8])
    · simp [hr, List.filter_cons, hq1, hq2]
  exact (min_median_profile_consistent pricesC8 2).2.2.2 0 (by omega)

/-! ## C3: the "Ulcer Index" entry of get_all_metrics -/

/-- Claim C3 is false on the code: for the NAV path `[100, 100, 40, 20]`
the raw ulcer index is `sqrt(1/4) = 1/2`, but `get_all_metrics` stores
`100 * sqrt(1/4) = 50` under the key `"Ulcer Index"` — the
percentage-scaled value, not the raw decimal. -/
theorem ulcer_entry_cex :
    ulcer_index_sq navC3 = some (1 / 4) ∧
    get_all_metrics_ulcer_entry navC3 = some (100 * Real.sqrt ((1 / 4 : ℚ) : ℝ)) ∧
    Real.sqrt ((1 / 4 : ℚ) : ℝ) = 1 / 2 ∧
    (100 * Real.sqrt ((1 / 4 : ℚ) : ℝ)) ≠ Real.sqrt ((1 / 4 : ℚ) : ℝ) := by
  have hu : ulcer_index_sq navC3 = some (1 / 4) := by
    rw [ulcer_index_sq, if_neg (by simp [navC3])]
    norm_num [navC3, drawdowns, cummax, cummaxAux, mean]
  have hs : Real.sqrt ((1 / 4 : ℚ) : ℝ) = 1 / 2 := by
    rw [show ((1 / 4 : ℚ) : ℝ) = (1 / 2) ^ 2 by norm_num,
      Real.sqrt_sq (by norm_num)]
  refine ⟨hu, ?_, hs, ?_⟩
  · rw [get_all_metrics_ulcer_entry, hu, Option.map_some']
  · rw [hs]
    norm_num

/-- Claim C3, amended: the `"Ulcer Index"` entry of `get_all_metrics`
equals `100 * sqrt(mean(DrawdownPath²))` — the percentage-scaled value —
which differs from the raw decimal whenever the ulcer index is nonzero. -/
theorem ulcer_entry_percent_scaled (nav : List ℚ) (u : ℚ)
    (h : ulcer_index_sq nav = some u) (hu : 0 < u) :
    get_all_metrics_ulcer_entry nav = some (100 * Real.sqrt (u : ℝ)) ∧
    (100 * Real.sqrt (u : ℝ)) ≠ Real.sqrt (u : ℝ) := by
  refine ⟨by rw [get_all_metrics_ulcer_entry, h, Option.map_some'], ?_⟩
  have hs : 0 < Real.sqrt (u : ℝ) := Real.sqrt_pos.mpr (by exact_mod_cast hu)
  intro heq
  linarith

/-- Witness for `ulcer_entry_percent_scaled` at `navC3`. -/
theorem ulcer_entry_percent_scaled_witness :
    get_all_metrics_ulcer_entry navC3 = some (100 * Real.sqrt ((1 / 4 : ℚ) : ℝ)) ∧
    (100 * Real.sqrt ((1 / 4 : ℚ) : ℝ)) ≠ Real.sqrt ((1 / 4 : ℚ) : ℝ) :=
  ulcer_entry_percent_scaled navC3 (1 / 4)
    (by rw [ulcer_index_sq, if_neg (by simp [navC3])]
        norm_num [navC3, drawdowns, cummax, cummaxAux, mean])
    (by norm_num)

/-! ## C1: the first portfolio value -/

lemma ffillAux_length (l : List (Option ℚ)) : ∀ last, (ffillAux last l).length = l.length := by
  induction l with
  | nil => intro last; rfl
  | cons o xs ih =>
    intro last
    cases o with
    | none => simp [ffillAux, ih]
    | some x => simp [ffillAux, ih]

lemma ffillAux_append_some (l : List (Option ℚ)) (x : ℚ) :
    ∀ last, ffillAux last (l ++ [some x]) = ffillAux last l ++ [some x] := by
  induction l with
  | nil => intro last; rfl
  | cons o xs ih =>
    intro last
    cases o with
    | none => simp [ffillAux, ih]
    | some y => simp [ffillAux, ih]

lemma bfill_length (l : List (Option ℚ)) : (bfill l).length = l.length := by
  simp [bfill, ffillAux_length]

lemma bfill_cons_some_head (x : ℚ) (rest : List (Option ℚ)) :
    (bfill (some x :: rest)).head? = some (some x) := by
  have h : (some x :: rest).reverse = rest.reverse ++ [some x] := by simp
  rw [bfill, h, ffillAux_append_some, List.reverse_append]
  simp

lemma fillColumn_length (col : List (Option ℚ)) : (fillColumn col).length = col.length := by
  simp [fillColumn, bfill_length, ffillAux_length, ffill]

lemma fillColumn_cons_some_head (x : ℚ) (rest : List (Option ℚ)) :
    (fillColumn (some x :: rest)).head? = some x := by
  have hff : ffill (some x :: rest) = some x :: ffillAux (some x) rest := rfl
  rw [fillColumn, hff, List.head?_map, bfill_cons_some_head]
  rfl

lemma zipWith_head? (f : ℚ → ℚ → ℚ) (l₁ l₂ : List ℚ) (a b : ℚ)
    (h₁ : l₁.head? = some a) (h₂ : l₂.head? = some b) :
    (List.zipWith f l₁ l₂).head? = some (f a b) := by
  cases l₁ with
  | nil => simp at h₁
  | cons u us =>
    cases l₂ with
    | nil => simp at h₂
    | cons w ws =>
      simp only [List.head?_cons, Option.some_inj] at h₁ h₂
      subst h₁
      subst h₂
      rfl

lemma rebase_cons_some (v : ℚ) (rest : List (Option ℚ)) (hv : v ≠ 0) :
    rebase (some v :: rest) =
      some (some 1 :: rest.map (Option.map (· / v))) := by
  rw [rebase]
  simp only [List.filterMap_cons, id]
  simp [div_self hv]

lemma portfolio_foldl_head (data : List (String × List (Option ℚ)))
    (weights : List (String × ℚ)) (n : ℕ) (cs : List String) :
    ∀ (acc : List ℚ) (a : ℚ), acc.length = n → acc.head? = some a →
    (∀ c ∈ cs, ∃ col v rest, data.lookup c = some col ∧ col.length = n ∧
        col = some v :: rest ∧ v ≠ 0) →
    ∃ p, cs.foldlM (fun acc c => do
          let col ← data.lookup c
          let reb ← rebase col
          pure (List.zipWith (fun a x => a + x) acc
            ((fillColumn reb).map (fun x => x * wOf weights c)))) acc = some p ∧
      p.length = n ∧ p.head? = some (a + (cs.map (wOf weights)).sum) := by
  induction cs with
  | nil =>
    intro acc a hlen hhead _
    exact ⟨acc, rfl, hlen, by simpa using hhead⟩
  | cons c cs ih =>
    intro acc a hlen hhead hcs
    obtain ⟨col, v, rest, hlook, hcollen, hcol, hv⟩ :=
      hcs c (List.mem_cons_self c cs)
    have hreb : rebase col = some (some 1 :: rest.map (Option.map (· / v))) := by
      rw [hcol]
      exact rebase_cons_some v rest hv
    have hrest : rest.length + 1 = n := by
      rw [hcol] at hcollen
      simpa using hcollen
    have hfl : (fillColumn (some 1 :: rest.map (Option.map (· / v)))).length = n := by
      rw [fillColumn_length]
      simpa using hrest
    have hfh : (fillColumn (some 1 :: rest.map (Option.map (· / v)))).head? = some 1 :=
      fillColumn_cons_some_head 1 _
    have hstep : (List.zipWith (fun a x => a + x) acc
        ((fillColumn (some 1 :: rest.map (Option.map (· / v)))).map
          (fun x => x * wOf weights c))).length = n := by
      rw [List.length_zipWith, hlen, List.length_map, hfl, min_self]
    have hsh : (List.zipWith (fun a x => a + x) acc
        ((fillColumn (some 1 :: rest.map (Option.map (· / v)))).map
          (fun x => x * wOf weights c))).head? = some (a + 1 * wOf weights c) := by
      refine zipWith_head? _ _ _ a (1 * wOf weights c) hhead ?_
      rw [List.head?_map, hfh]
      rfl
    obtain ⟨p, hp, hplen, hphead⟩ := ih _ _ hstep hsh
      (fun c' hc' => hcs c' (List.mem_cons_of_mem c hc'))
    refine ⟨p, ?_, hplen, ?_⟩
    · rw [List.foldlM_cons, hlook]
      simpa [hreb] using hp
    · rw [hphead, List.map_cons, List.sum_cons]
      congr 1
      ring

/-- Claim C1, amended: `create_portfolio` performs no weight
normalization: when every retained asset column starts with a valid
nonzero value, the portfolio value at the first timestamp equals the sum
of the raw weights of the retained assets (so `{A: 0.3, B: 0.2}` gives
`0.5`, not `1.0`). -/
theorem create_portfolio_first_value (data : List (String × List (Option ℚ)))
    (weights : List (String × ℚ))
    (hd : data ≠ []) (hwne : weights ≠ [])
    (hvne : valid_assets data weights ≠ [])
    (hcols : ∀ c ∈ valid_assets data weights, ∃ col v rest,
        data.lookup c = some col ∧ col.length = indexLen data ∧
        col = some v :: rest ∧ v ≠ 0) :
    ∃ p, create_portfolio data weights = some p ∧
      p.head? = some (((valid_assets data weights).map (wOf weights)).sum) := by
  have hn : 1 ≤ indexLen data := by
    obtain ⟨c, hc⟩ := List.exists_mem_of_ne_nil _ hvne
    obtain ⟨col, v, rest, _, hcollen, hcol, _⟩ := hcols c hc
    rw [hcol] at hcollen
    simp at hcollen
    omega
  have hrep : (List.replicate (indexLen data) (0 : ℚ)).head? = some 0 := by
    cases hn' : indexLen data with
    | zero => omega
    | succ m => simp [List.replicate_succ]
  rw [create_portfolio, if_neg (by push_neg; exact ⟨hd, hwne⟩)]
  simp only
  rw [if_neg hvne]
  obtain ⟨p, hp, _, hphead⟩ := portfolio_foldl_head data weights (indexLen data)
    (valid_assets data weights) (List.replicate (indexLen data) 0) 0
    (by simp) hrep hcols
  exact ⟨p, hp, by simpa using hphead⟩

/-- Witness for `create_portfolio_first_value` at the scenario data: the
first portfolio value is the raw-weight sum `0.3 + 0.2`. -/
theorem create_portfolio_first_value_witness :
    ∃ p, create_portfolio dataC1 weightsC1 = some p ∧
      p.head? = some (((valid_assets dataC1 weightsC1).map (wOf weightsC1)).sum) := by
  have hBA : ("B" == "A") = false := by decide
  have hva : valid_assets dataC1 weightsC1 = ["A", "B"] := by
    norm_num [valid_assets, dataC1, weightsC1, wOf, List.lookup, hBA]
  refine create_portfolio_first_value dataC1 weightsC1 (by simp [dataC1])
    (by simp [weightsC1]) (by rw [hva]; simp) ?_
  intro c hc
  rw [hva] at hc
  rcases List.mem_cons.mp hc with h | h
  · subst h
    exact ⟨[some 100, some 110], 100, [some 110], by simp [dataC1, List.lookup],
      by simp [dataC1, indexLen], rfl, by norm_num⟩
  · have h2 : c = "B" := by simpa using h
    subst h2
    exact ⟨[some 50, some 55], 50, [some 55], by simp [dataC1, List.lookup, hBA],
      by simp [dataC1, indexLen], rfl, by norm_num⟩

/-! ## C6: Sharpe ratio at zero volatility -/

lemma annualized_return_val_inv (s : RiskState) (b e : ℚ)
    (h : annualized_return s = AnnRes.val b e) :
    0 ≤ b ∧ e ≠ 0 ∧ (b = 0 → 0 < e) := by
  rw [annualized_return] at h
  split_ifs at h with h1 h2 h3 h4 h5 h6 h7
  · -- `total_years < 0`, `total_return > -1`
    simp only [AnnRes.val.injEq, one_div] at h
    obtain ⟨hb, he⟩ := h
    have htr : -1 < total_return s := by
      rcases lt_trichotomy (total_return s) (-1) with hlt | heqv | hgt
      · exact absurd hlt h4
      · exact absurd heqv h3
      · exact hgt
    have hT : elapsed_years s < 0 := lt_of_le_of_ne h2 h5
    refine ⟨by rw [← hb]; linarith, ?_, ?_⟩
    · rw [← he]
      exact ne_of_lt (inv_lt_zero.mpr hT)
    · intro hb0
      rw [← hb] at hb0
      linarith
  · -- `total_years > 0`, `1 + total_return ≥ 0`
    simp only [AnnRes.val.injEq, one_div] at h
    obtain ⟨hb, he⟩ := h
    have hT : 0 < elapsed_years s := lt_of_not_le h2
    refine ⟨by rw [← hb]; linarith [not_lt.mp h6], ?_, fun _ => ?_⟩
    · rw [← he]
      exact ne_of_gt (inv_pos.mpr hT)
    · rw [← he]
      exact inv_pos.mpr hT

lemma rpow_den_pow (b : ℚ) (hb : 0 < b) (e : ℚ) :
    ((b : ℝ) ^ ((e : ℚ) : ℝ)) ^ (e.den : ℕ) = ((b ^ e.num : ℚ) : ℝ) := by
  have hb' : (0 : ℝ) ≤ (b : ℝ) := by exact_mod_cast le_of_lt hb
  have hden : ((e.den : ℚ)) ≠ 0 := by
    exact_mod_cast e.den_pos.ne'
  have hq : (e * (e.den : ℚ) : ℚ) = (e.num : ℚ) := by
    calc e * (e.den : ℚ) = ((e.num : ℚ) / (e.den : ℚ)) * (e.den : ℚ) := by
          rw [Rat.num_div_den]
      _ = (e.num : ℚ) := div_mul_cancel₀ _ hden
  have hmul : ((e : ℚ) : ℝ) * ((e.den : ℕ) : ℝ) = ((e.num : ℤ) : ℝ) := by
    exact_mod_cast congrArg (fun q : ℚ => (q : ℝ)) hq
  rw [← Real.rpow_natCast ((b : ℝ) ^ ((e : ℚ) : ℝ)) e.den, ← Real.rpow_mul hb',
    hmul, Real.rpow_intCast]
  push_cast
  ring

lemma cmpPow_cases (b e c : ℚ) (hb : 0 ≤ b) (hb0 : b = 0 → 0 < e) :
    (cmpPow b e c = .gt ∧ (c : ℝ) < (b : ℝ) ^ ((e : ℚ) : ℝ)) ∨
    (cmpPow b e c = .eq ∧ (b : ℝ) ^ ((e : ℚ) : ℝ) = (c : ℝ)) ∨
    (cmpPow b e c = .lt ∧ (b : ℝ) ^ ((e : ℚ) : ℝ) < (c : ℝ)) := by
  have hR0 : (0 : ℝ) ≤ (b : ℝ) ^ ((e : ℚ) : ℝ) :=
    Real.rpow_nonneg (by exact_mod_cast hb) _
  by_cases h1 : c < 0
  · exact Or.inl ⟨by rw [cmpPow, if_pos h1],
      lt_of_lt_of_le (by exact_mod_cast h1) hR0⟩
  by_cases h2 : c = 0
  · by_cases h3 : b = 0
    · refine Or.inr (Or.inl ⟨by rw [cmpPow, if_neg h1, if_pos h2, if_pos h3], ?_⟩)
      have hepos : 0 < e := hb0 h3
      rw [h3, h2]
      rw [show ((0 : ℚ) : ℝ) = (0 : ℝ) by norm_num]
      exact Real.zero_rpow (by exact_mod_cast hepos.ne')
    · refine Or.inl ⟨by rw [cmpPow, if_neg h1, if_pos h2, if_neg h3], ?_⟩
      have hbp : 0 < b := lt_of_le_of_ne hb (Ne.symm h3)
      rw [h2]
      rw [show ((0 : ℚ) : ℝ) = (0 : ℝ) by norm_num]
      exact Real.rpow_pos_of_pos (by exact_mod_cast hbp) _
  have hcp : 0 < c := lt_of_le_of_ne (not_lt.mp h1) (Ne.symm h2)
  have hcR : (0 : ℝ) ≤ (c : ℝ) := by exact_mod_cast le_of_lt hcp
  rcases eq_or_lt_of_le hb with hb' | hbp
  · -- b = 0: the power is 0, strictly below c
    have hepos : 0 < e := hb0 hb'.symm
    have hnum : e.num ≠ 0 := (Rat.num_pos.mpr hepos).ne'
    have hlhs : b ^ e.num = 0 := by
      rw [← hb']
      exact zero_zpow e.num hnum
    refine Or.inr (Or.inr ⟨?_, ?_⟩)
    · rw [cmpPow, if_neg h1, if_neg h2, if_pos (by rw [hlhs]; exact pow_pos hcp _)]
    · rw [← hb']
      rw [show ((0 : ℚ) : ℝ) = (0 : ℝ) by norm_num]
      rw [Real.zero_rpow (by exact_mod_cast hepos.ne')]
      exact_mod_cast hcp
  · -- 0 < b and 0 < c: compare the integer powers
    have hpowR : ((b : ℝ) ^ ((e : ℚ) : ℝ)) ^ (e.den : ℕ) = ((b ^ e.num : ℚ) : ℝ) :=
      rpow_den_pow b hbp e
    have hpowc : ((c : ℚ) : ℝ) ^ (e.den : ℕ) = ((c ^ e.den : ℚ) : ℝ) := by
      push_cast
      ring
    rcases lt_trichotomy (b ^ e.num) (c ^ e.den) with h4 | h4 | h4
    · refine Or.inr (Or.inr ⟨?_, ?_⟩)
      · rw [cmpPow, if_neg h1, if_neg h2, if_pos h4]
      · refine (pow_lt_pow_iff_left₀ hR0 hcR e.den_pos.ne').mp ?_
        rw [hpowR, hpowc]
        exact_mod_cast h4
    · refine Or.inr (Or.inl ⟨?_, ?_⟩)
      · rw [cmpPow, if_neg h1, if_neg h2, if_neg (by rw [h4]; exact lt_irrefl _),
          if_neg (by rw [h4]; exact lt_irrefl _)]
      · refine (pow_left_inj₀ hR0 hcR e.den_pos.ne').mp ?_
        rw [hpowR, hpowc]
        exact_mod_cast h4
    · refine Or.inl ⟨?_, ?_⟩
      · rw [cmpPow, if_neg h1, if_neg h2, if_neg (not_lt.mpr (le_of_lt h4)),
          if_pos h4]
      · refine (pow_lt_pow_iff_left₀ hcR hR0 e.den_pos.ne').mp ?_
        rw [hpowR, hpowc]
        exact_mod_cast h4

lemma cmpPow_spec (b e c : ℚ) (hb : 0 ≤ b) (hb0 : b = 0 → 0 < e) :
    ((c : ℝ) < (b : ℝ) ^ ((e : ℚ) : ℝ) ↔ cmpPow b e c = .gt) ∧
    ((b : ℝ) ^ ((e : ℚ) : ℝ) = (c : ℝ) ↔ cmpPow b e c = .eq) ∧
    ((b : ℝ) ^ ((e : ℚ) : ℝ) < (c : ℝ) ↔ cmpPow b e c = .lt) := by
  rcases cmpPow_cases b e c hb hb0 with ⟨hc, hx⟩ | ⟨hc, hx⟩ | ⟨hc, hx⟩
  · refine ⟨⟨fun _ => hc, fun _ => hx⟩, ⟨fun h => absurd h (ne_of_gt hx), fun h =>
      absurd (hc.symm.trans h) (by simp)⟩, ⟨fun h => absurd h (not_lt.mpr (le_of_lt hx)),
      fun h => absurd (hc.symm.trans h) (by simp)⟩⟩
  · refine ⟨⟨fun h => absurd hx.symm (ne_of_lt h), fun h =>
      absurd (hc.symm.trans h) (by simp)⟩, ⟨fun _ => hc, fun _ => hx⟩,
      ⟨fun h => absurd hx (ne_of_lt h), fun h => absurd (hc.symm.trans h) (by simp)⟩⟩
  · refine ⟨⟨fun h => absurd h (not_lt.mpr (le_of_lt hx)), fun h =>
      absurd (hc.symm.trans h) (by simp)⟩, ⟨fun h => absurd h (ne_of_lt hx), fun h =>
      absurd (hc.symm.trans h) (by simp)⟩, ⟨fun _ => hc, fun _ => hx⟩⟩

/-- Claim C6 (confirmed): when the annualized return is a finite value
`b ** e - 1` and the annualized volatility is zero, the Sharpe ratio is
`+inf` when the excess return over `rf * F` is positive, `-inf` when
negative, and the undefined sentinel when zero. -/
theorem sharpe_ratio_zero_vol (s : RiskState) (b e : ℚ)
    (hr : annualized_return s = AnnRes.val b e)
    (hv : annualized_volatility_sq s = VolRes.valSq 0) :
    (((1 + s.rf * s.F : ℚ) : ℝ) < (b : ℝ) ^ ((e : ℚ) : ℝ) →
      sharpe_ratio s = SharpeRes.posinf) ∧
    ((b : ℝ) ^ ((e : ℚ) : ℝ) < ((1 + s.rf * s.F : ℚ) : ℝ) →
      sharpe_ratio s = SharpeRes.neginf) ∧
    ((b : ℝ) ^ ((e : ℚ) : ℝ) = ((1 + s.rf * s.F : ℚ) : ℝ) →
      sharpe_ratio s = SharpeRes.nan) := by
  obtain ⟨hb, he, hb0⟩ := annualized_return_val_inv s b e hr
  obtain ⟨hgt, heqd, hlt⟩ := cmpPow_spec b e (1 + s.rf * s.F) hb hb0
  refine ⟨fun h => ?_, fun h => ?_, fun h => ?_⟩
  · have hc := hgt.mp h
    simp [sharpe_ratio, hr, hv, hc]
  · have hc := hlt.mp h
    simp [sharpe_ratio, hr, hv, hc]
  · have hc := heqd.mp h
    simp [sharpe_ratio, hr, hv, hc]

/-- Witness for `sharpe_ratio_zero_vol` at `stateC6` (zero volatility,
annualized return `4 ** (1461/1460) - 1 > 0`, zero risk-free rate): the
Sharpe ratio is exactly `+inf`. -/
theorem sharpe_ratio_zero_vol_witness : sharpe_ratio stateC6 = SharpeRes.posinf := by
  have hr : annualized_return stateC6 = AnnRes.val 4 (1461 / 1460) := by
    norm_num [annualized_return, stateC6, total_return, elapsed_years, nav_values]
  have hv : annualized_volatility_sq stateC6 = VolRes.valSq 0 := by
    norm_num [annualized_volatility_sq, stateC6, sampleVar, mean]
  refine (sharpe_ratio_zero_vol stateC6 4 (1461 / 1460) hr hv).1 ?_
  have h1 : ((1 + stateC6.rf * stateC6.F : ℚ) : ℝ) = 1 := by
    norm_num [stateC6]
  have hepos : (0 : ℝ) < (((1461 / 1460 : ℚ) : ℚ) : ℝ) := by norm_num
  have h4 : ((4 : ℚ) : ℝ) = (4 : ℝ) := by norm_num
  rw [h1, h4]
  calc (1 : ℝ) = (4 : ℝ) ^ (0 : ℝ) := (Real.rpow_zero 4).symm
    _ < (4 : ℝ) ^ (((1461 / 1460 : ℚ) : ℚ) : ℝ) :=
        (Real.rpow_lt_rpow_left_iff (by norm_num)).mpr hepos

end PortfolioAnalysis
